import Mathlib

/-!
Shallow embedding of the trade-matching and metrics engine of the
kalshi-dash repository (`src/utils/processData.ts` and
`src/components/RiskAdjustedReturns.tsx`), together with theorems settling
the specification claims about it.

Modelling conventions:
* JS `number` values arising in this program are decimal values, modelled as
  rationals (`ℚ`).  Where the program can divide by zero (producing a
  non-finite JS number, NaN or ±Infinity) and the result is observable, the
  result is modelled explicitly by `JsNum`.  Divisions whose zero-denominator
  case is unobservable (the value is never read on that path) use total `ℚ`
  division.
* JS `Date` values are epoch milliseconds, modelled as `ℤ`.  Calendar
  operations (`setHours(0,0,0,0)`, `setDate(+1)`, ISO day keys) are modelled
  for a UTC host environment.
* Host functions that are not part of the repository (`Date.now()`,
  `new Date(string)` free-form parsing, `toISOString`) are supplied through a
  `JsEnv` record of parameters.
-/

namespace Kalshi

/-- A JS number that is either finite (a rational) or non-finite (NaN or
±Infinity, as produced by dividing a finite number by zero). -/
inductive JsNum where
  | finite (q : ℚ)
  | nonFinite
deriving DecidableEq

/-- JS division at `number` type: dividing a finite number by zero yields a
non-finite number (NaN when the numerator is 0, ±Infinity otherwise — the
distinction is not needed, both are `nonFinite`). -/
def jsDiv (a b : ℚ) : JsNum :=
  if b = 0 then JsNum.nonFinite else JsNum.finite (a / b)

/-- Canonical trade record (`interface Trade` in processData.ts).  The source
field `Type` is spelled `Type'` because `Type` is reserved in Lean. -/
structure Trade where
  Ticker : String
  Type' : String
  Direction : String
  Contracts : ℚ
  Average_Price : ℚ
  Realized_Revenue : ℚ
  Realized_Cost : ℚ
  Realized_Profit : ℚ
  Fees : ℚ
  Created : String
  Date : ℤ
  Trade_Cost : ℚ
deriving DecidableEq

/-- Matched round-trip record (`interface MatchedTrade`).  `ROI?: number` is
an optional field: `none` models the field being absent (`undefined`). -/
structure MatchedTrade where
  Ticker : String
  Entry_Date : ℤ
  Exit_Date : ℤ
  Entry_Direction : String
  Exit_Type : String
  Contracts : ℚ
  Entry_Cost : ℚ
  Realized_Profit : ℚ
  Net_Profit : ℚ
  Holding_Period_Days : ℚ
  ROI : Option JsNum
  Entry_Fee : ℚ
  Exit_Fee : ℚ
  Total_Fees : ℚ
  Entry_Price : ℚ
  Exit_Price : ℚ
deriving DecidableEq

/-- Open lot (`interface Position`).  The fields `pid` and `original` are
ghost instrumentation, not present in the source: `pid` identifies the lot
(the order in which lots were pushed) and `original` records the contract
count the lot was created with.  Neither is ever read by the computation. -/
structure Position where
  ticker : String
  direction : String
  contracts : ℚ
  avg_price : ℚ
  entry_date : ℤ
  entry_fee : ℚ
  cost : ℚ
  is_closed : Bool
  pid : ℕ
  original : ℚ
deriving DecidableEq

/-- Stable insertion into a list sorted ascending by `key`; an element is
inserted before the first element with a key `≥` its own, hence after all
earlier elements with an equal key.  Models the stable ascending
`Array.prototype.sort` used with comparator `(a, b) => key a - key b`. -/
def insertByKey {α : Type} (key : α → ℤ) (x : α) : List α → List α
  | [] => [x]
  | y :: ys => if key x ≤ key y then x :: y :: ys else y :: insertByKey key x ys

/-- Stable sort ascending by `key` (insertion sort). -/
def sortByKey {α : Type} (key : α → ℤ) : List α → List α
  | [] => []
  | x :: xs => insertByKey key x (sortByKey key xs)

/-- `[...trades].sort((a, b) => a.Date.getTime() - b.Date.getTime())`. -/
def sortTradesByDate (l : List Trade) : List Trade := sortByKey (fun t => t.Date) l

/-- `calculateTradeCost` (processData.ts lines 245-255). -/
def calculateTradeCost (row : Trade) : ℚ :=
  if row.Type' = "settlement" ∨ (row.Type' = "trade" ∧ row.Realized_Profit ≠ 0) then
    |row.Realized_Cost|
  else if row.Type' = "trade" ∧ row.Realized_Profit = 0 then
    row.Contracts * (row.Average_Price / 100)
  else 0

/-- `trade.Trade_Cost = calculateTradeCost(trade)` applied to one trade. -/
def setTradeCost (t : Trade) : Trade := { t with Trade_Cost := calculateTradeCost t }

/-- The matcher's open-position filter (lines 321-326) fused with the
per-ticker dictionary lookup: the JS matcher keeps one insertion-ordered
queue per ticker (`openPositions[ticker]`); we model all queues as a single
insertion-ordered list, the queue of a ticker being its sublist of positions
carrying that ticker, so the dictionary lookup becomes part of the filter. -/
def eligible (t : Trade) (p : Position) : Bool :=
  p.ticker == t.Ticker && !p.is_closed &&
    (p.direction == t.Direction ||
      (p.direction == "Yes" && t.Direction == "No") ||
      (p.direction == "No" && t.Direction == "Yes"))

/-- The body of one iteration of the exit-matching loop (lines 338-379): the
`MatchedTrade` emitted when the exit trade `t` (with per-exit values
`exitPrice`, `ppc` = realizedProfitPerContract, `exitFee`, and remaining
quantity `toClose`) closes contracts of position `p`. -/
def emitMatched (t : Trade) (exitPrice ppc exitFee toClose : ℚ) (p : Position) :
    MatchedTrade :=
  let contractsClosed := min toClose p.contracts
  let isSettle := t.Type' = "settlement"
  let profit := if isSettle then ppc * contractsClosed
    else contractsClosed * (100 - p.avg_price - exitPrice) / 100
  let finalExitPrice := if isSettle then exitPrice else 100 - exitPrice
  let entryCost := p.cost * (contractsClosed / p.contracts)
  let proportionalEntryFee := p.entry_fee * (contractsClosed / p.contracts)
  let proportionalExitFee := exitFee * (contractsClosed / toClose)
  let totalFees := proportionalEntryFee + proportionalExitFee
  { Ticker := p.ticker
    Entry_Date := p.entry_date
    Exit_Date := t.Date
    Entry_Direction := p.direction
    Exit_Type := t.Type'
    Contracts := contractsClosed
    Entry_Cost := entryCost
    Realized_Profit := profit
    Net_Profit := profit - totalFees
    Holding_Period_Days := ((t.Date - p.entry_date : ℤ) : ℚ) / (24 * 3600 * 1000)
    ROI := some (jsDiv (profit - totalFees) entryCost)
    Entry_Fee := proportionalEntryFee
    Exit_Fee := proportionalExitFee
    Total_Fees := totalFees
    Entry_Price := p.avg_price
    Exit_Price := finalExitPrice }

/-- The position update of one iteration of the exit-matching loop
(lines 383-388): decrement the remaining contracts and mark the position
closed when nothing remains. -/
def closePosition (toClose : ℚ) (p : Position) : Position :=
  let contractsClosed := min toClose p.contracts
  { p with
    contracts := p.contracts - contractsClosed
    is_closed := if p.contracts - contractsClosed ≤ 0 then true else false }

/-- The exit-matching loop (lines 335-389): walk the open positions in queue
order, closing eligible ones against the exit trade `t` until the exit's
remaining quantity `toClose` is exhausted (the `contractsToClose <= 0`
break).  Returns the updated queue and the emitted matched trades, each
paired with the ghost `pid` of the position it was emitted against. -/
def closeAgainst (t : Trade) (exitPrice ppc exitFee : ℚ) :
    ℚ → List Position → List Position × List (MatchedTrade × ℕ)
  | _, [] => ([], [])
  | toClose, p :: ps =>
    if eligible t p then
      if toClose ≤ 0 then (p :: ps, [])
      else
        let contractsClosed := min toClose p.contracts
        let r := closeAgainst t exitPrice ppc exitFee (toClose - contractsClosed) ps
        (closePosition toClose p :: r.1,
          (emitMatched t exitPrice ppc exitFee toClose p, p.pid) :: r.2)
    else
      let r := closeAgainst t exitPrice ppc exitFee toClose ps
      (p :: r.1, r.2)

/-- Matcher state: the open-position list (all per-ticker queues, in
insertion order), the emitted matched trades (paired with the ghost pid of
their entry position), and the ghost pid counter. -/
structure MatchState where
  positions : List Position
  completed : List (MatchedTrade × ℕ)
  nextPid : ℕ
deriving DecidableEq

/-- One iteration of the matcher's main loop (lines 276-391): classify the
trade as an entry (push a position) or an exit (close against the queue);
anything else is a no-op.  An exit with no eligible open position is skipped
(the unmatched-exit warning path, lines 328-332). -/
def matchStep (s : MatchState) (t : Trade) : MatchState :=
  if t.Type' = "trade" ∧ t.Realized_Profit = 0 then
    let position : Position :=
      { ticker := t.Ticker, direction := t.Direction, contracts := t.Contracts,
        avg_price := t.Average_Price, entry_date := t.Date, entry_fee := t.Fees,
        cost := t.Trade_Cost, is_closed := false,
        pid := s.nextPid, original := t.Contracts }
    { s with positions := s.positions ++ [position], nextPid := s.nextPid + 1 }
  else if t.Type' = "settlement" ∨ (t.Type' = "trade" ∧ t.Realized_Profit ≠ 0) then
    let contractsToClose := t.Contracts
    let exitPrice := if t.Type' = "settlement" then
        t.Realized_Revenue / contractsToClose * 100
      else t.Average_Price
    let realizedProfitPerContract :=
      if t.Realized_Profit ≠ 0 then t.Realized_Profit / contractsToClose else 0
    let exitFee := t.Fees
    if (s.positions.filter (eligible t)).isEmpty then s
    else
      let r := closeAgainst t exitPrice realizedProfitPerContract exitFee
        contractsToClose s.positions
      { s with positions := r.1, completed := s.completed ++ r.2 }
  else s

/-- `matchTradesFifo` up to its final state (the source sorts a copy of the
input, recomputes every `Trade_Cost`, then folds the main loop over it). -/
def matchTradesFifoAux (trades : List Trade) : MatchState :=
  ((sortTradesByDate trades).map setTradeCost).foldl matchStep ⟨[], [], 0⟩

/-- `matchTradesFifo` (lines 258-405): the emitted matched trades, ghost
pids erased. -/
def matchTradesFifo (trades : List Trade) : List MatchedTrade :=
  (matchTradesFifoAux trades).completed.map Prod.fst

/-! ### Properties of the stable sort -/

/-- A list is sorted ascending by `key`. -/
abbrev SortedBy {α : Type} (key : α → ℤ) (l : List α) : Prop :=
  l.Chain' (fun a b => key a ≤ key b)

/-! ### Matcher bookkeeping lemmas

`sumFor pid mts` is the total contract count of the matched trades emitted
against the position with ghost id `pid`. -/

def sumFor (i : ℕ) (l : List (MatchedTrade × ℕ)) : ℚ :=
  ((l.filter fun x => x.2 == i).map fun x => x.1.Contracts).sum

/-! ### The matcher's running invariant -/

/-- Invariant of the matcher state: pids are distinct and below the pid
counter, and for every open-position entry, the contracts already emitted
against it plus its remaining contracts equal the contracts it was created
with (`original`), the remainder staying nonnegative whenever the original
count was nonnegative. -/
def matchInvariant (s : MatchState) : Prop :=
  (s.positions.map fun p => p.pid).Pairwise (· ≠ ·) ∧
    (∀ p ∈ s.positions, p.pid < s.nextPid) ∧
    (∀ x ∈ s.completed, x.2 < s.nextPid) ∧
    (∀ p ∈ s.positions, sumFor p.pid s.completed + p.contracts = p.original) ∧
    (∀ p ∈ s.positions, 0 ≤ p.original → 0 ≤ p.contracts)

/-! ### JS string/number primitives used by the normalizer -/

/-- ASCII lower-casing (JS `toLowerCase` on the ASCII data seen here). -/
def charToLower (c : Char) : Char :=
  if 'A' ≤ c ∧ c ≤ 'Z' then Char.ofNat (c.toNat + 32) else c

/-- ASCII upper-casing (JS `toUpperCase` on the ASCII data seen here). -/
def charToUpper (c : Char) : Char :=
  if 'a' ≤ c ∧ c ≤ 'z' then Char.ofNat (c.toNat - 32) else c

def toLowerStr (s : String) : String := (s.data.map charToLower).asString

def toUpperStr (s : String) : String := (s.data.map charToUpper).asString

def isJsSpace (c : Char) : Bool := c = ' ' || c = '\t' || c = '\n' || c = '\r'

/-- JS `String.prototype.trim` (whitespace from both ends). -/
def trimStr (s : String) : String :=
  ((s.data.dropWhile isJsSpace).reverse.dropWhile isJsSpace).reverse.asString

/-- JS truthiness of a possibly-absent string: `undefined` and `""` are
falsy, any other string is truthy. -/
def truthy (v : Option String) : Bool :=
  match v with
  | some s => !s.data.isEmpty
  | none => false

/-- JS `a || b` on possibly-absent strings. -/
def jsOr (a b : Option String) : Option String := if truthy a then a else b

/-- Numeric value of a digit run (`"123"` ↦ `123`). -/
def digitsToNat (ds : List Char) : ℕ := ds.foldl (fun n c => 10 * n + (c.toNat - 48)) 0

/-- The string-level part of JS `parseFloat` on the decimal literals
occurring in Kalshi exports: skip leading whitespace, then an optional sign
and a decimal number with optional fractional part; trailing junk is
ignored.  `none` models `NaN` (no parsable prefix); otherwise the sign and
the integer/fraction digit runs. -/
def parseFloatParts (s : String) : Option (Bool × List Char × List Char) :=
  let cs := s.data.dropWhile isJsSpace
  let signAndRest : Bool × List Char :=
    match cs with
    | '-' :: rest => (true, rest)
    | '+' :: rest => (false, rest)
    | _ => (false, cs)
  let intPart := signAndRest.2.takeWhile Char.isDigit
  let rest := signAndRest.2.dropWhile Char.isDigit
  let fracPart :=
    match rest with
    | '.' :: r => r.takeWhile Char.isDigit
    | _ => []
  if intPart.isEmpty && fracPart.isEmpty then none
  else some (signAndRest.1, intPart, fracPart)

/-- The numeric value of a parsed sign/digits triple. -/
def partsToQ : Bool × List Char × List Char → ℚ
  | (neg, ip, fp) => (if neg then -1 else 1) *
      ((digitsToNat ip : ℚ) + (digitsToNat fp : ℚ) / (10 : ℚ) ^ fp.length)

/-- JS `parseFloat` (string-level parse, then numeric value). -/
def parseFloatQ (s : String) : Option ℚ := (parseFloatParts s).map partsToQ

/-- `value.replace(/[$,%]/g, '').trim()` (the cleaning of `parseNumber`). -/
def cleanNumberChars (s : String) : String :=
  trimStr (s.data.filter fun c => !(c = '$' || c = ',' || c = '%')).asString

/-- `parseNumber` (processData.ts lines 78-86) applied to a possibly-absent
string value: strip every `$`, `,`, `%`, trim, `parseFloat`, 0 on NaN. -/
def parseNumber (v : Option String) : ℚ :=
  match v with
  | none => 0
  | some s =>
    match parseFloatQ (cleanNumberChars s) with
    | some q => q
    | none => 0

/-- `centsToDollars` (line 87). -/
def centsToDollars (v : Option String) : ℚ := parseNumber v / 100

/-- `val.replace('$', '')`: JS string-pattern `replace` removes only the
first occurrence. -/
def removeFirstDollar : List Char → List Char
  | [] => []
  | c :: cs => if c = '$' then cs else c :: removeFirstDollar cs

/-- `val.replace('$', '').trim()` (the cleaning of `cleanMoney`). -/
def cleanMoneyChars (s : String) : String :=
  trimStr (removeFirstDollar s.data).asString

/-- `cleanMoney` (lines 498-501, legacy row parsing): falsy value ↦ 0, else
strip one `$`, trim, parseFloat, 0 on NaN (the `|| 0`). -/
def cleanMoney (v : Option String) : ℚ :=
  if truthy v then
    match v with
    | none => 0
    | some s =>
      match parseFloatQ (cleanMoneyChars s) with
      | some q => q
      | none => 0
  else 0

/-- `normalizeDirection` (lines 88-94) on a possibly-absent string. -/
def normalizeDirection (direction : Option String) : String :=
  match direction with
  | none => "Unknown"
  | some d =>
    if d.data.isEmpty then "Unknown"
    else
      let lower := toLowerStr d
      if lower = "yes" || lower = "y" then "Yes"
      else if lower = "no" || lower = "n" then "No"
      else d

/-- `normalizeHeader` (line 77). -/
def normalizeHeader (header : String) : String := toLowerStr (trimStr header)

/-! ### Dates: the Kalshi timestamp parser (`parseDate`, lines 97-167)

Dates are epoch milliseconds.  Host functionality that is not part of the
repository is a parameter (`JsEnv`). -/

/-- Host environment: `Date.now()`, generic `new Date(string)` parsing
(`none` = Invalid Date), and `Date.prototype.toISOString`. -/
structure JsEnv where
  now : ℤ
  freeParse : String → Option ℤ
  toIso : ℤ → String

def dayMs : ℤ := 86400000

/-- The fixed table of timezone-abbreviation offsets (lines 105-114), in minutes
east of UTC (the source stores the equivalent `"-08:00"`-style strings that
are interpolated into an ISO instant). -/
def timezoneOffsets : List (String × ℤ) :=
  [("PST", -480), ("PDT", -420), ("PT", -480),
   ("MST", -420), ("MDT", -360), ("MT", -420),
   ("CST", -360), ("CDT", -300), ("CT", -360),
   ("EST", -300), ("EDT", -240), ("ET", -300),
   ("AKST", -540), ("AKDT", -480), ("AKT", -540),
   ("HST", -600), ("HDT", -540), ("HT", -600),
   ("AST", -240), ("ADT", -180), ("AT", -240),
   ("UTC", 0), ("GMT", 0), ("Z", 0)]

/-- `timezoneOffsets[upperTimeZone] || '-08:00'` (line 118): unrecognized
abbreviations default to the Pacific Standard Time offset. -/
def tzOffsetMinutes (tz : String) : ℤ := (timezoneOffsets.lookup tz).getD (-480)

def monthNames : List String :=
  ["Jan", "Feb", "Mar", "Apr", "May", "Jun",
   "Jul", "Aug", "Sep", "Oct", "Nov", "Dec"]

def isLeapYear (y : ℤ) : Bool := ((y % 4 == 0) && !(y % 100 == 0)) || (y % 400 == 0)

def daysBeforeMonth (m : ℕ) : ℕ :=
  [0, 0, 31, 59, 90, 120, 151, 181, 212, 243, 273, 304, 334].getD m 0

def daysInMonth (y : ℤ) (m : ℕ) : ℕ :=
  if m = 2 then (if isLeapYear y then 29 else 28)
  else if m = 4 ∨ m = 6 ∨ m = 9 ∨ m = 11 then 30
  else 31

/-- Leap years in `[1, y]` (for `y ≥ 1`), extended to all of `ℤ` by floor
division. -/
def leapsUpTo (y : ℤ) : ℤ := y.fdiv 4 - y.fdiv 100 + y.fdiv 400

/-- Days from 1970-01-01 (the epoch) to the civil date `y-m-d` (proleptic
Gregorian calendar, as used by JS `Date`/ISO-8601). -/
def daysFromCivil (y : ℤ) (m d : ℕ) : ℤ :=
  365 * (y - 1970) + (leapsUpTo (y - 1) - leapsUpTo 1969) +
    (daysBeforeMonth m : ℤ) + (if 2 < m ∧ isLeapYear y then 1 else 0) + ((d : ℤ) - 1)

/-- `\w` of the Kalshi regex. -/
def isWordChar (c : Char) : Bool := c.isAlphanum || c = '_'

/-- The capture groups of the Kalshi pattern
`(\w+ \d+, \d+) at (\d+:\d+) ?([AP]M) ([A-Z]{2,4})` (with the `/i` flag);
the inner re-match `(\w+) (\d+), (\d+)` of the first group (line 120)
always recovers the same three components, so the groups are fused here. -/
structure KalshiGroups where
  monthStr : String
  dayStr : String
  yearStr : String
  hourStr : String
  minuteStr : String
  isPM : Bool
  tzStr : String
deriving DecidableEq

/-- Match the Kalshi pattern at the start of `cs`.  Greedy token runs
followed by a delimiter outside the token class are exact for this pattern,
so no backtracking is needed; the one genuinely optional piece (the space
before AM/PM) cannot overlap `[AP]`. -/
def matchKalshiAt (cs : List Char) : Option KalshiGroups :=
  let month := cs.takeWhile isWordChar
  let r1 := cs.dropWhile isWordChar
  if month.isEmpty then none else
  match r1 with
  | ' ' :: r2 =>
    let day := r2.takeWhile Char.isDigit
    let r3 := r2.dropWhile Char.isDigit
    if day.isEmpty then none else
    match r3 with
    | ',' :: ' ' :: r4 =>
      let year := r4.takeWhile Char.isDigit
      let r5 := r4.dropWhile Char.isDigit
      if year.isEmpty then none else
      match r5 with
      | ' ' :: a :: t :: ' ' :: r6 =>
        if !((a = 'a' || a = 'A') && (t = 't' || t = 'T')) then none else
        let hour := r6.takeWhile Char.isDigit
        let r7 := r6.dropWhile Char.isDigit
        if hour.isEmpty then none else
        match r7 with
        | ':' :: r8 =>
          let minute := r8.takeWhile Char.isDigit
          let r9 := r8.dropWhile Char.isDigit
          if minute.isEmpty then none else
          let r10 := match r9 with
            | ' ' :: rr => rr
            | rr => rr
          match r10 with
          | ap :: m :: r11 =>
            if !(ap = 'A' || ap = 'a' || ap = 'P' || ap = 'p') then none
            else if !(m = 'M' || m = 'm') then none
            else
              match r11 with
              | ' ' :: r12 =>
                let letters := (r12.takeWhile fun c => c.isAlpha).take 4
                if letters.length < 2 then none
                else some
                  { monthStr := month.asString
                    dayStr := day.asString
                    yearStr := year.asString
                    hourStr := hour.asString
                    minuteStr := minute.asString
                    isPM := ap = 'P' || ap = 'p'
                    tzStr := letters.asString }
              | _ => none
          | _ => none
        | _ => none
      | _ => none
    | _ => none
  | _ => none

/-- Unanchored leftmost search for the Kalshi pattern (JS `String.match`). -/
def findKalshi : List Char → Option KalshiGroups
  | [] => none
  | c :: cs =>
    match matchKalshiAt (c :: cs) with
    | some g => some g
    | none => findKalshi cs

/-- 12-hour to 24-hour conversion (lines 133-139). -/
def hour24Of (hourVal : ℕ) (isPM : Bool) : ℕ :=
  if isPM ∧ hourVal ≠ 12 then hourVal + 12
  else if !isPM ∧ hourVal = 12 then 0
  else hourVal

/-- The Kalshi branch of `parseDate` (lines 103-153): on a pattern match,
look the month name up (case-sensitively) in `monthNames`, convert to
24-hour time, assemble the ISO instant with the resolved UTC offset and
parse it.  `none` when the pattern does not match, the month name is
unknown (`indexOf === -1`), or the assembled ISO string is not a valid
instant (`isNaN(parsed.getTime())`): the components must form a 4-digit
year, a ≤2-digit day in range for the month, a 2-digit minute ≤ 59 and an
hour ≤ 23. -/
def kalshiMillis (dateStr : String) : Option ℤ :=
  match findKalshi dateStr.data with
  | none => none
  | some g =>
    match monthNames.indexOf? g.monthStr with
    | none => none
    | some monthIndex =>
      let m := monthIndex + 1
      let offset := tzOffsetMinutes (toUpperStr g.tzStr)
      let hourVal := digitsToNat g.hourStr.data
      let hour24 := hour24Of hourVal g.isPM
      let day := digitsToNat g.dayStr.data
      let minuteVal := digitsToNat g.minuteStr.data
      let year := digitsToNat g.yearStr.data
      if g.yearStr.data.length = 4 ∧ g.dayStr.data.length ≤ 2 ∧ g.minuteStr.data.length = 2 ∧
          1 ≤ day ∧ day ≤ daysInMonth (year : ℤ) m ∧ hour24 ≤ 23 ∧ minuteVal ≤ 59 then
        some (daysFromCivil (year : ℤ) m day * dayMs +
          (hour24 : ℤ) * 3600000 + (minuteVal : ℤ) * 60000 - offset * 60000)
      else none

/-- `parseDate` (lines 97-167): the Kalshi branch, then generic `new Date`
parsing, then the current instant.  Total — never throws (the source wraps
everything in try/catch with the same current-instant fallback). -/
def parseDate (env : JsEnv) (dateStr : String) : ℤ :=
  match kalshiMillis dateStr with
  | some ms => ms
  | none =>
    match env.freeParse dateStr with
    | some ms => ms
    | none => env.now

/-! ### The row normalizer (`transformNewFormatRows`, the legacy row map,
`processCSVData`) -/

/-- A parsed CSV row (papaparse with `header: true` and no dynamic typing:
every present cell is a string; `none` is an absent property).  Field names
follow the source's property accesses; the legacy `Type` column is spelled
`Type'`. -/
structure Row where
  Ticker : Option String := none
  Type' : Option String := none
  type : Option String := none
  Direction : Option String := none
  Contracts : Option String := none
  Average_Price : Option String := none
  Realized_Revenue : Option String := none
  Realized_Cost : Option String := none
  Realized_Profit : Option String := none
  Fees : Option String := none
  Created : Option String := none
  market_ticker : Option String := none
  quantity : Option String := none
  side : Option String := none
  entry_price_cents : Option String := none
  exit_price_cents : Option String := none
  open_fees_cents : Option String := none
  close_fees_cents : Option String := none
  realized_pnl_without_fees_cents : Option String := none
  realized_pnl_with_fees_cents : Option String := none
  open_timestamp : Option String := none
  entry_timestamp : Option String := none
  opened_at : Option String := none
  created_at : Option String := none
  close_timestamp : Option String := none
  exit_timestamp : Option String := none
  closed_at : Option String := none
  updated_at : Option String := none
  Updated : Option String := none
  Closed : Option String := none
  Entry_Price : Option String := none
  Exit_Price : Option String := none
  Open_Fees : Option String := none
  Close_Fees : Option String := none
  Realized_PnL_Without_Fees : Option String := none
  Realized_PnL_With_Fees : Option String := none
deriving DecidableEq

/-- One iteration of the `rows.forEach` of `transformNewFormatRows`
(lines 173-239): `none` models the early `return`s (credit row, falsy
ticker, non-positive contract count); otherwise the canonical `Trade` and
the pre-matched `MatchedTrade` pushed for this row.  `total` is
`rows.length` and `index` the forEach index (for the synthetic fallback
entry timestamp). -/
def transformNewFormatRow? (env : JsEnv) (total index : ℕ) (row : Row) :
    Option (Trade × MatchedTrade) :=
  let rawType := toLowerStr ((jsOr row.type row.Type').getD "")
  if rawType = "credit" then none
  else
    let ticker := jsOr row.market_ticker row.Ticker
    if !truthy ticker then none
    else
      let contracts := parseNumber (jsOr row.quantity row.Contracts)
      if contracts ≤ 0 then none
      else
        let entryPriceCents := parseNumber (jsOr row.entry_price_cents row.Entry_Price)
        let exitPriceCents := parseNumber (jsOr row.exit_price_cents row.Exit_Price)
        let openFees := centsToDollars (jsOr row.open_fees_cents row.Open_Fees)
        let closeFees := centsToDollars (jsOr row.close_fees_cents row.Close_Fees)
        let pnlWithoutFees := centsToDollars
          (jsOr row.realized_pnl_without_fees_cents row.Realized_PnL_Without_Fees)
        let pnlWithFees := centsToDollars
          (jsOr row.realized_pnl_with_fees_cents row.Realized_PnL_With_Fees)
        let direction := normalizeDirection (jsOr row.side row.Direction)
        let entryTimestamp := jsOr row.open_timestamp (jsOr row.entry_timestamp
          (jsOr row.opened_at (jsOr row.created_at row.Created)))
        let exitTimestamp := jsOr row.close_timestamp (jsOr row.exit_timestamp
          (jsOr row.closed_at (jsOr row.updated_at (jsOr row.Updated row.Closed))))
        let entryDate := if truthy entryTimestamp then
            parseDate env (entryTimestamp.getD "")
          else env.now - ((total : ℤ) - (index : ℤ)) * 1000
        let exitDate := if truthy exitTimestamp then
            parseDate env (exitTimestamp.getD "")
          else entryDate
        let entryCost := contracts * (entryPriceCents / 100)
        let exitProceeds := contracts * (exitPriceCents / 100)
        let totalFees := openFees + closeFees
        let isSettlement := exitPriceCents = 0 ∨ exitPriceCents = 100 ∨ rawType = "settlement"
        let tradeType := if isSettlement then "settlement" else "trade"
        some
          ({ Ticker := ticker.getD ""
             Type' := tradeType
             Direction := direction
             Contracts := contracts
             Average_Price := entryPriceCents
             Realized_Revenue := exitProceeds
             Realized_Cost := entryCost
             Realized_Profit := pnlWithFees
             Fees := totalFees
             Created := (jsOr exitTimestamp (jsOr entryTimestamp
               (some (env.toIso exitDate)))).getD ""
             Date := exitDate
             Trade_Cost := entryCost },
           { Ticker := ticker.getD ""
             Entry_Date := entryDate
             Exit_Date := exitDate
             Entry_Direction := direction
             Exit_Type := tradeType
             Contracts := contracts
             Entry_Cost := entryCost
             Realized_Profit := pnlWithoutFees
             Net_Profit := pnlWithFees
             Holding_Period_Days := ((exitDate - entryDate : ℤ) : ℚ) / (24 * 3600 * 1000)
             ROI := if entryCost ≠ 0 then some (JsNum.finite (pnlWithFees / entryCost))
               else none
             Entry_Fee := openFees
             Exit_Fee := closeFees
             Total_Fees := totalFees
             Entry_Price := entryPriceCents
             Exit_Price := exitPriceCents })

def transformNewFormatRowsAux (env : JsEnv) (total : ℕ) :
    ℕ → List Row → List Trade × List MatchedTrade
  | _, [] => ([], [])
  | index, row :: rest =>
    let r := transformNewFormatRowsAux env total (index + 1) rest
    match transformNewFormatRow? env total index row with
    | none => r
    | some (t, mt) => (t :: r.1, mt :: r.2)

/-- `transformNewFormatRows` (lines 169-242). -/
def transformNewFormatRows (env : JsEnv) (rows : List Row) :
    List Trade × List MatchedTrade :=
  transformNewFormatRowsAux env rows.length 0 rows

/-- The legacy row filter (line 495): a row is kept when its `Ticker` is
truthy and its `Type` is not `'credit'`. -/
def legacyKeep (row : Row) : Bool :=
  truthy row.Ticker && !(row.Type' == some "credit")

/-- The legacy row map (lines 496-523).  The `try`/`catch`-with-`null` and
`filter(Boolean)` of the source cannot fire in the model (every operation
here is total), so the map is direct.  A missing `Created` makes
`parseDate(undefined)` throw internally (`dateStr.match` on undefined) and
return the current instant from its own catch handler, so that case maps
to `env.now` directly. -/
def legacyTradeOfRow (env : JsEnv) (row : Row) : Trade :=
  { Ticker := row.Ticker.getD ""
    Type' := row.Type'.getD ""
    Direction := row.Direction.getD ""
    Contracts := (parseFloatQ (row.Contracts.getD "")).getD 0
    Average_Price := (parseFloatQ (row.Average_Price.getD "")).getD 0
    Realized_Revenue := cleanMoney row.Realized_Revenue
    Realized_Cost := cleanMoney row.Realized_Cost
    Realized_Profit := cleanMoney row.Realized_Profit
    Fees := if truthy row.Fees then cleanMoney row.Fees else 0
    Created := row.Created.getD ""
    Date := match row.Created with
      | some s => parseDate env s
      | none => env.now
    Trade_Cost := 0 }

/-- The legacy normalization pipeline of `processCSVData` (lines 494-524). -/
def legacyTrades (env : JsEnv) (rows : List Row) : List Trade :=
  (rows.filter legacyKeep).map (legacyTradeOfRow env)

/-! ### The statistics aggregator (`calculateBasicStats`, lines 408-458) -/

structure YesNoBreakdown where
  Yes : ℚ
  No : ℚ
deriving DecidableEq

structure BasicStats where
  uniqueTickers : ℕ
  totalTrades : ℕ
  yesNoBreakdown : YesNoBreakdown
  totalFees : ℚ
  totalProfit : ℚ
  avgContractPurchasePrice : ℚ
  avgContractFinalPrice : ℚ
  weightedHoldingPeriod : ℚ
  winRate : ℚ
  settledWinRate : ℚ
deriving DecidableEq

def calculateBasicStats (trades : List Trade) (matchedTrades : List MatchedTrade) :
    BasicStats :=
  let uniqueTickers := (trades.map fun t => t.Ticker).dedup.length
  let yesSum := ((trades.filter fun t =>
    normalizeDirection (some t.Direction) == "Yes").map fun t => t.Contracts).sum
  let noSum := ((trades.filter fun t =>
    normalizeDirection (some t.Direction) == "No").map fun t => t.Contracts).sum
  let totalFees := (trades.map fun t => t.Fees).sum
  let totalProfit := (trades.map fun t => t.Realized_Profit).sum
  let totalContracts := (matchedTrades.map fun m => m.Contracts).sum
  let avgContractPurchasePrice := if 0 < totalContracts then
      ((matchedTrades.map fun m => m.Entry_Price * m.Contracts).sum) / totalContracts
    else 0
  let avgContractFinalPrice := if 0 < totalContracts then
      ((matchedTrades.map fun m => m.Exit_Price * m.Contracts).sum) / totalContracts
    else 0
  let totalTradeValue := (matchedTrades.map fun m => m.Entry_Cost).sum
  let weightedHoldingPeriod := if 0 < totalTradeValue then
      ((matchedTrades.map fun m =>
        m.Holding_Period_Days * (m.Entry_Cost / totalTradeValue)).sum)
    else 0
  let winRate := if 0 < matchedTrades.length then
      (((matchedTrades.filter fun m => 0 < m.Net_Profit).length : ℚ) /
        (matchedTrades.length : ℚ))
    else 0
  let settledTrades := matchedTrades.filter fun m => m.Exit_Type == "settlement"
  let settledWinRate := if 0 < settledTrades.length then
      (((settledTrades.filter fun m => 0 < m.Net_Profit).length : ℚ) /
        (settledTrades.length : ℚ))
    else 0
  { uniqueTickers := uniqueTickers
    totalTrades := trades.length
    yesNoBreakdown := { Yes := yesSum, No := noSum }
    totalFees := totalFees
    totalProfit := totalProfit
    avgContractPurchasePrice := avgContractPurchasePrice
    avgContractFinalPrice := avgContractFinalPrice
    weightedHoldingPeriod := weightedHoldingPeriod
    winRate := winRate
    settledWinRate := settledWinRate }

/-! ### `processCSVData` (lines 461-543) and `combineProcessedData`
(lines 546-568) -/

structure ProcessedData where
  originalData : List Row
  trades : List Trade
  matchedTrades : List MatchedTrade
  basicStats : BasicStats
deriving DecidableEq

inductive Schema where
  | legacy
  | newFormat
deriving DecidableEq

def LEGACY_COLUMNS : List String :=
  ["ticker", "type", "direction", "contracts", "average_price", "created"]

def NEW_FORMAT_COLUMNS : List String :=
  ["market_ticker", "quantity", "side", "entry_price_cents", "exit_price_cents",
   "realized_pnl_with_fees_cents"]

def hasLegacyColumns (headers : List String) : Bool :=
  LEGACY_COLUMNS.all fun c => headers.contains c

def hasNewColumns (headers : List String) : Bool :=
  NEW_FORMAT_COLUMNS.all fun c => headers.contains c

/-- Schema detection of `processCSVData` (lines 467-479): normalize the
header fields; no full column set present means a schema-mismatch error
(`none`); the new-format branch is taken only when the legacy set is not
also present; otherwise the legacy branch. -/
def detectSchema (fields : List String) : Option Schema :=
  let headers := fields.map normalizeHeader
  if ¬hasLegacyColumns headers ∧ ¬hasNewColumns headers then none
  else if hasNewColumns headers ∧ ¬hasLegacyColumns headers then some Schema.newFormat
  else some Schema.legacy

/-- Parsed CSV input (`results.data` plus `results.meta?.fields || []`). -/
structure CSVResults where
  data : List Row
  fields : List String
deriving DecidableEq

def schemaErrorMsg : String :=
  "Invalid CSV format: Missing required columns for both legacy and new Kalshi exports."

/-- `processCSVData` (lines 461-543); thrown errors are `Except.error`.
After the legacy branch runs the matcher, the trade objects shared with the
returned `trades` array carry the recomputed `Trade_Cost` (the in-place
mutation of lines 263-265), hence the `setTradeCost` map on the output. -/
def processCSVData (env : JsEnv) (results : CSVResults) : Except String ProcessedData :=
  if results.data.isEmpty then
    Except.error "Invalid CSV format: No data found"
  else
    match detectSchema results.fields with
    | none => Except.error schemaErrorMsg
    | some Schema.newFormat =>
      let tm := transformNewFormatRows env results.data
      if tm.1.isEmpty then Except.error "No valid trades found in the CSV file"
      else Except.ok
        { originalData := results.data
          trades := tm.1
          matchedTrades := tm.2
          basicStats := calculateBasicStats tm.1 tm.2 }
    | some Schema.legacy =>
      let trades := legacyTrades env results.data
      if trades.isEmpty then Except.error "No valid trades found in the CSV file"
      else
        let matchedTrades := matchTradesFifo trades
        let tradesOut := trades.map setTradeCost
        Except.ok
          { originalData := results.data
            trades := tradesOut
            matchedTrades := matchedTrades
            basicStats := calculateBasicStats tradesOut matchedTrades }

/-- `combineProcessedData` (lines 546-568): concatenate the raw trade lists,
re-sort by date, re-run the FIFO matcher from scratch, recompute the
statistics.  As in `processCSVData`, the returned trades carry the
`Trade_Cost` values the matcher wrote into the shared objects. -/
def combineProcessedData (dataArray : List ProcessedData) : ProcessedData :=
  let allTrades := dataArray.foldl (fun acc d => acc ++ d.trades) []
  let sortedTrades := sortTradesByDate allTrades
  let matchedTrades := matchTradesFifo sortedTrades
  let tradesOut := sortedTrades.map setTradeCost
  let basicStats := calculateBasicStats tradesOut matchedTrades
  let originalData := dataArray.foldl (fun acc d => acc ++ d.originalData) []
  { originalData := originalData
    trades := tradesOut
    matchedTrades := matchedTrades
    basicStats := basicStats }

/-! ### The risk metrics calculator (`calculateRiskMetrics`,
RiskAdjustedReturns.tsx lines 21-141)

`Math.sqrt` is a host primitive with no exact rational counterpart; it is
passed in as the parameter `sqrtFn` (the degenerate-case behavior settled
here never evaluates it). -/

structure RiskMetrics where
  totalReturn : ℚ
  standardDeviation : ℚ
  annualizedSharpe : ℚ
  tradingDays : ℕ
  avgDailyReturn : ℚ
  annualizedReturn : ℚ
  annualizedVolatility : ℚ
  initialCapital : ℚ
deriving DecidableEq

/-- The all-zero metrics record returned in the degenerate cases
(lines 22-33 and 93-104). -/
def zeroRiskMetrics (initialCapital : ℚ) : RiskMetrics :=
  { totalReturn := 0
    standardDeviation := 0
    annualizedSharpe := 0
    tradingDays := 0
    avgDailyReturn := 0
    annualizedReturn := 0
    annualizedVolatility := 0
    initialCapital := initialCapital }

/-- `setHours(0,0,0,0)` / the ISO day key of an epoch-millisecond instant,
for a UTC host: floor to the containing UTC midnight. -/
def floorDay (t : ℤ) : ℤ := dayMs * (t.fdiv dayMs)

/-- `Math.min(...)` of a date list (only evaluated on nonempty input). -/
def minList (l : List ℤ) : ℤ :=
  match l with
  | [] => 0
  | x :: xs => xs.foldl min x

/-- `Math.max(...)` of a date list (only evaluated on nonempty input). -/
def maxList (l : List ℤ) : ℤ :=
  match l with
  | [] => 0
  | x :: xs => xs.foldl max x

def sortMatchedByExit (l : List MatchedTrade) : List MatchedTrade :=
  sortByKey (fun m => m.Exit_Date) l

/-- The P&L application walk (lines 53-71): for each matched trade in exit
order, accumulate its (fee-exclusive) realized profit and overwrite the
portfolio value of every tracked day from the trade's exit day onward with
`initialCapital + cumulativeProfit`.  The value table is modelled as a
function evaluated only at the tracked day keys (which are exactly the UTC
midnights of the date range, so the day-stepping inner `while` hits them). -/
def applyTradeProfits (initialCapital : ℚ) :
    List MatchedTrade → ℚ → (ℤ → ℚ) → (ℤ → ℚ)
  | [], _, f => f
  | tr :: rest, cum, f =>
    let cum' := cum + tr.Realized_Profit
    applyTradeProfits initialCapital rest cum'
      (fun d => if floorDay tr.Exit_Date ≤ d then initialCapital + cum' else f d)

/-- The day keys of the tracked range (lines 41-50): one per day from the
floor of `startFloor` while not past `endDate`. -/
def dateRangeOf (startFloor endDate : ℤ) : List ℤ :=
  let n := if endDate < startFloor then 0 else ((endDate - startFloor).fdiv dayMs).toNat + 1
  (List.range n).map fun k => startFloor + (k : ℤ) * dayMs

/-- The final daily portfolio-value series (`portfolioValueArray`,
lines 75-78). -/
def portfolioSeries (matchedTrades : List MatchedTrade) (initialCapital : ℚ) :
    List ℚ :=
  let startFloor := floorDay (minList (matchedTrades.map fun m => m.Entry_Date))
  let endDate := maxList (matchedTrades.map fun m => m.Exit_Date)
  let value := applyTradeProfits initialCapital (sortMatchedByExit matchedTrades) 0
    (fun _ => initialCapital)
  (dateRangeOf startFloor endDate).map value

/-- Consecutive-day returns (lines 80-88): one `(today − yesterday) /
yesterday` per adjacent pair, skipped when yesterday's value is not
positive. -/
def dailyReturnsAux : List ℚ → List ℚ
  | a :: b :: rest => (if 0 < a then [(b - a) / a] else []) ++ dailyReturnsAux (b :: rest)
  | _ => []

def dailyReturnsOf (matchedTrades : List MatchedTrade) (initialCapital : ℚ) : List ℚ :=
  dailyReturnsAux (portfolioSeries matchedTrades initialCapital)

/-- `calculateRiskMetrics` (lines 21-141). -/
def calculateRiskMetrics (sqrtFn : ℚ → ℚ) (matchedTrades : List MatchedTrade)
    (initialCapital : ℚ) : RiskMetrics :=
  if matchedTrades.isEmpty ∨ initialCapital ≤ 0 then zeroRiskMetrics initialCapital
  else
    let dailyReturns := dailyReturnsOf matchedTrades initialCapital
    let activeDailyReturns := dailyReturns.filter fun r => 0 < |r|
    if activeDailyReturns.isEmpty then zeroRiskMetrics initialCapital
    else
      let avgDailyReturn := dailyReturns.sum / (dailyReturns.length : ℚ)
      let variance := ((dailyReturns.map fun r => (r - avgDailyReturn) ^ 2).sum) /
        (dailyReturns.length : ℚ)
      let standardDeviation := sqrtFn variance
      let series := portfolioSeries matchedTrades initialCapital
      let finalValue := series.getLast?.getD initialCapital
      let totalReturn := (finalValue - initialCapital) / initialCapital
      let annualizedReturn := avgDailyReturn * 252
      let annualizedVolatility := standardDeviation * sqrtFn 252
      let sharpe := if standardDeviation ≠ 0 then avgDailyReturn / standardDeviation else 0
      let annualizedSharpe := sharpe * sqrtFn 252
      { totalReturn := totalReturn
        standardDeviation := standardDeviation
        annualizedSharpe := annualizedSharpe
        tradingDays := activeDailyReturns.length
        avgDailyReturn := avgDailyReturn
        annualizedReturn := annualizedReturn
        annualizedVolatility := annualizedVolatility
        initialCapital := initialCapital }

/-! ### Concrete inputs used by the claim theorems -/

/-- A host environment with `Date.now() = 0` epoch, no generic date parsing
and a trivial ISO formatter (none of which the scenarios below reach). -/
def env0 : JsEnv := { now := 0, freeParse := fun _ => none, toIso := fun _ => "" }

/-- Entry of 20 contracts at 50¢ (cost $10.00) with $1.00 fee, day 1. -/
def c1Entry : Trade :=
  { Ticker := "T", Type' := "trade", Direction := "Yes", Contracts := 20,
    Average_Price := 50, Realized_Revenue := 0, Realized_Cost := 0, Realized_Profit := 0,
    Fees := 1, Created := "", Date := 1, Trade_Cost := 0 }

/-- Exit of 8 contracts (trade-type close at 60¢, nonzero realized profit), day 2. -/
def c1ExitA : Trade :=
  { Ticker := "T", Type' := "trade", Direction := "Yes", Contracts := 8,
    Average_Price := 60, Realized_Revenue := 0, Realized_Cost := 4, Realized_Profit := 1,
    Fees := 0, Created := "", Date := 2, Trade_Cost := 0 }

/-- Exit of the remaining 12 contracts, day 3. -/
def c1ExitB : Trade := { c1ExitA with Contracts := 12, Date := 3 }

/-- Entry of 10 contracts at 0¢: its cost basis is $0.00. -/
def c2Entry : Trade :=
  { Ticker := "T", Type' := "trade", Direction := "Yes", Contracts := 10,
    Average_Price := 0, Realized_Revenue := 0, Realized_Cost := 0, Realized_Profit := 0,
    Fees := 0, Created := "", Date := 1, Trade_Cost := 0 }

/-- Settlement of those 10 contracts at 0¢ (no revenue, no profit), day 2. -/
def c2Settle : Trade :=
  { Ticker := "T", Type' := "settlement", Direction := "Yes", Contracts := 10,
    Average_Price := 0, Realized_Revenue := 0, Realized_Cost := 0, Realized_Profit := 0,
    Fees := 0, Created := "", Date := 2, Trade_Cost := 0 }

/-- E1: entry of 10 contracts, "Yes", day 1 (also the 10 @ 30¢ entry of the
settlement-economics scenario). -/
def c4E1 : Trade :=
  { Ticker := "T", Type' := "trade", Direction := "Yes", Contracts := 10,
    Average_Price := 30, Realized_Revenue := 0, Realized_Cost := 0, Realized_Profit := 0,
    Fees := 0, Created := "", Date := 1, Trade_Cost := 0 }

/-- E2: entry of 10 contracts, "Yes", day 2. -/
def c4E2 : Trade := { c4E1 with Date := 2 }

/-- A single 10-contract exit (settlement) on day 3. -/
def c4Exit : Trade :=
  { Ticker := "T", Type' := "settlement", Direction := "Yes", Contracts := 10,
    Average_Price := 0, Realized_Revenue := 10, Realized_Cost := 3, Realized_Profit := 7,
    Fees := 0, Created := "", Date := 3, Trade_Cost := 0 }

/-- A legacy row can carry a negative contract count (`parseFloat` with no
positivity filter); this entry trade has -5 contracts. -/
def c5NegEntry : Trade :=
  { Ticker := "T", Type' := "trade", Direction := "Yes", Contracts := -5,
    Average_Price := 50, Realized_Revenue := 0, Realized_Cost := 0, Realized_Profit := 0,
    Fees := 0, Created := "", Date := 1, Trade_Cost := 0 }

/-- The open position the matcher pushes for `c5NegEntry`. -/
def c5Pos : Position :=
  { ticker := "T", direction := "Yes", contracts := -5, avg_price := 50,
    entry_date := 1, entry_fee := 0, cost := -5/2, is_closed := false,
    pid := 0, original := -5 }

/-- The open position the matcher pushes for `c4E1` (used to instantiate the
contract-conservation theorem at a concrete input). -/
def c5WitnessPos : Position :=
  { ticker := "T", direction := "Yes", contracts := 10, avg_price := 30,
    entry_date := 1, entry_fee := 0, cost := 3, is_closed := false,
    pid := 0, original := 10 }

/-- Opposite-direction exit: 10 contracts "No" at 80¢, trade-type close
(nonzero realized profit), day 2. -/
def c6Exit : Trade :=
  { Ticker := "T", Type' := "trade", Direction := "No", Contracts := 10,
    Average_Price := 80, Realized_Revenue := 0, Realized_Cost := 0, Realized_Profit := -1,
    Fees := 0, Created := "", Date := 2, Trade_Cost := 0 }

/-- A legacy row whose contract count parses to 0 (kept by the legacy
filter, which only checks ticker truthiness and `Type !== 'credit'`). -/
def c3Row : Row := { Ticker := some "T", Type' := some "trade", Contracts := some "0" }

/-- A header row carrying all six legacy and all six new-format columns. -/
def fields12 : List String := LEGACY_COLUMNS ++ NEW_FORMAT_COLUMNS

/-! ## Supporting lemmas -/

theorem data_asString (l : List Char) : l.asString.data = l := rfl

theorem insertByKey_sortedBy {α : Type} (key : α → ℤ) (x : α) :
    ∀ {l : List α}, SortedBy key l → SortedBy key (insertByKey key x l) := by
  intro l h
  induction l with
  | nil => simp [insertByKey]
  | cons y ys ih =>
    by_cases hxy : key x ≤ key y
    · rw [insertByKey, if_pos hxy]
      exact List.chain'_cons.mpr ⟨hxy, h⟩
    · have hyx : key y ≤ key x := le_of_not_le hxy
      have htl : SortedBy key ys := List.Chain'.tail h
      rw [insertByKey, if_neg hxy]
      refine List.chain'_cons'.mpr ⟨?_, ih htl⟩
      intro z hz
      cases ys with
      | nil =>
        simp only [insertByKey, List.head?] at hz
        simp only [Option.mem_def, Option.some.injEq] at hz
        subst hz; exact hyx
      | cons w ws =>
        rw [insertByKey] at hz
        by_cases hxw : key x ≤ key w
        · rw [if_pos hxw] at hz
          simp only [List.head?, Option.mem_def, Option.some.injEq] at hz
          subst hz; exact hyx
        · rw [if_neg hxw] at hz
          simp only [List.head?, Option.mem_def, Option.some.injEq] at hz
          subst hz; exact (List.chain'_cons.mp h).1

theorem sortByKey_sortedBy {α : Type} (key : α → ℤ) :
    ∀ l : List α, SortedBy key (sortByKey key l)
  | [] => by simp [sortByKey]
  | x :: xs => insertByKey_sortedBy key x (sortByKey_sortedBy key xs)

theorem sortByKey_eq_self {α : Type} (key : α → ℤ) :
    ∀ {l : List α}, SortedBy key l → sortByKey key l = l := by
  intro l h
  induction l with
  | nil => rfl
  | cons x xs ih =>
    have htl : SortedBy key xs := List.Chain'.tail h
    rw [sortByKey, ih htl]
    cases xs with
    | nil => rfl
    | cons y ys => rw [insertByKey, if_pos (List.chain'_cons.mp h).1]

theorem sortByKey_idem {α : Type} (key : α → ℤ) (l : List α) :
    sortByKey key (sortByKey key l) = sortByKey key l :=
  sortByKey_eq_self key (sortByKey_sortedBy key l)

/-- Sorting the input first does not change the matcher's output, because the
matcher itself begins by (stably) sorting its input by date. -/
theorem matchTradesFifo_sortTradesByDate (trades : List Trade) :
    matchTradesFifo (sortTradesByDate trades) = matchTradesFifo trades := by
  unfold matchTradesFifo matchTradesFifoAux sortTradesByDate
  rw [sortByKey_idem]

theorem sumFor_append (i : ℕ) (a b : List (MatchedTrade × ℕ)) :
    sumFor i (a ++ b) = sumFor i a + sumFor i b := by
  simp [sumFor, List.filter_append]

theorem sumFor_cons (i : ℕ) (x : MatchedTrade × ℕ) (l : List (MatchedTrade × ℕ)) :
    sumFor i (x :: l) = (if x.2 = i then x.1.Contracts else 0) + sumFor i l := by
  by_cases h : x.2 = i <;> simp [sumFor, List.filter_cons, h]

theorem sumFor_eq_zero {i : ℕ} {l : List (MatchedTrade × ℕ)}
    (h : ∀ x ∈ l, x.2 ≠ i) : sumFor i l = 0 := by
  have hf : l.filter (fun x => x.2 == i) = [] := by
    apply List.filter_eq_nil_iff.mpr
    intro x hx
    simpa using h x hx
  simp [sumFor, hf]

theorem forall₂_imp_of_mem {α β : Type} {R S : α → β → Prop} :
    ∀ {l₁ : List α} {l₂ : List β}, List.Forall₂ R l₁ l₂ →
      (∀ a b, a ∈ l₁ → R a b → S a b) → List.Forall₂ S l₁ l₂ := by
  intro l₁ l₂ h
  induction h with
  | nil => intro _; exact List.Forall₂.nil
  | @cons a b la lb hr _ ih =>
    intro himp
    exact List.Forall₂.cons (himp a b (List.mem_cons_self a la) hr)
      (ih fun x y hx => himp x y (List.mem_cons_of_mem a hx))

/-- The exit loop does not add or remove queue entries; it only mutates
them in place, so the (ghost) pid sequence of the queue is unchanged. -/
theorem closeAgainst_pids (t : Trade) (ep ppc ef : ℚ) :
    ∀ (toClose : ℚ) (l : List Position),
      ((closeAgainst t ep ppc ef toClose l).1.map fun p => p.pid) =
        l.map fun p => p.pid := by
  intro toClose l
  induction l generalizing toClose with
  | nil => simp [closeAgainst]
  | cons p ps ih =>
    cases he : eligible t p
    · simp [closeAgainst, he, ih]
    · by_cases hc : toClose ≤ 0
      · simp [closeAgainst, he, hc]
      · simp [closeAgainst, he, hc, closePosition, ih]

/-- Every matched trade emitted by the exit loop carries the pid of one of
the queue's positions. -/
theorem closeAgainst_mem_pids (t : Trade) (ep ppc ef : ℚ) :
    ∀ (toClose : ℚ) (l : List Position) (x : MatchedTrade × ℕ),
      x ∈ (closeAgainst t ep ppc ef toClose l).2 → ∃ p ∈ l, x.2 = p.pid := by
  intro toClose l
  induction l generalizing toClose with
  | nil => simp [closeAgainst]
  | cons p ps ih =>
    intro x hx
    cases he : eligible t p
    · rw [closeAgainst] at hx
      simp only [he, Bool.false_eq_true, if_false] at hx
      obtain ⟨q, hq, hpid⟩ := ih toClose x hx
      exact ⟨q, List.mem_cons_of_mem p hq, hpid⟩
    · by_cases hc : toClose ≤ 0
      · rw [closeAgainst] at hx
        simp [he, hc] at hx
      · rw [closeAgainst] at hx
        simp only [he, if_true, if_neg hc] at hx
        rcases List.mem_cons.mp hx with h1 | h2
        · exact ⟨p, List.mem_cons_self p ps, by rw [h1]⟩
        · obtain ⟨q, hq, hpid⟩ := ih _ x h2
          exact ⟨q, List.mem_cons_of_mem p hq, hpid⟩

/-- Conservation of contracts through one exit: for each position of the
queue (assuming distinct pids), the contracts closed against it by this exit
plus its remaining contracts equal its contracts before the exit; pids and
ghost originals are untouched, and a nonnegative contract count stays
nonnegative. -/
theorem closeAgainst_forall₂ (t : Trade) (ep ppc ef : ℚ) :
    ∀ (toClose : ℚ) (l : List Position),
      (l.map fun p => p.pid).Pairwise (· ≠ ·) →
      List.Forall₂ (fun p q => q.pid = p.pid ∧ q.original = p.original ∧
          sumFor p.pid (closeAgainst t ep ppc ef toClose l).2 + q.contracts = p.contracts ∧
          (0 ≤ p.contracts → 0 ≤ q.contracts))
        l (closeAgainst t ep ppc ef toClose l).1 := by
  intro toClose l
  induction l generalizing toClose with
  | nil => intro _; simp [closeAgainst]
  | cons p ps ih =>
    intro hpw
    have hpw' : (ps.map fun p => p.pid).Pairwise (· ≠ ·) := (List.pairwise_cons.mp hpw).2
    have hhd : ∀ b ∈ ps.map fun p => p.pid, p.pid ≠ b := (List.pairwise_cons.mp hpw).1
    cases he : eligible t p
    · -- ineligible head: untouched, recursion on the tail
      have hz : sumFor p.pid (closeAgainst t ep ppc ef toClose ps).2 = 0 := by
        apply sumFor_eq_zero
        intro x hx
        obtain ⟨q, hq, hpid⟩ := closeAgainst_mem_pids t ep ppc ef toClose ps x hx
        rw [hpid]
        exact fun hcontra => hhd q.pid (List.mem_map_of_mem _ hq) hcontra.symm
      rw [closeAgainst]
      simp only [he, Bool.false_eq_true, if_false]
      refine List.Forall₂.cons ⟨rfl, rfl, by rw [hz]; ring, fun h => h⟩ ?_
      exact ih toClose hpw'
    · by_cases hc : toClose ≤ 0
      · -- break: everything untouched, nothing emitted
        rw [closeAgainst]
        simp only [he, if_true, if_pos hc]
        apply List.forall₂_same.mpr
        intro q _
        exact ⟨rfl, rfl, by simp [sumFor], fun h => h⟩
      · -- close min(toClose, p.contracts) of the head, recurse on the tail
        have hz : sumFor p.pid
            (closeAgainst t ep ppc ef (toClose - min toClose p.contracts) ps).2 = 0 := by
          apply sumFor_eq_zero
          intro x hx
          obtain ⟨q, hq, hpid⟩ := closeAgainst_mem_pids t ep ppc ef _ ps x hx
          rw [hpid]
          exact fun hcontra => hhd q.pid (List.mem_map_of_mem _ hq) hcontra.symm
        rw [closeAgainst]
        simp only [he, if_true, if_neg hc]
        refine List.Forall₂.cons ?_ ?_
        · refine ⟨rfl, rfl, ?_, ?_⟩
          · rw [sumFor_cons]
            rw [if_pos rfl]
            simp only [closePosition, emitMatched, hz]
            ring
          · intro hp
            simp only [closePosition]
            exact sub_nonneg.mpr (min_le_right toClose p.contracts)
        · have htail := ih (toClose - min toClose p.contracts) hpw'
          refine forall₂_imp_of_mem htail ?_
          intro a b ha ⟨h1, h2, h3, h4⟩
          refine ⟨h1, h2, ?_, h4⟩
          rw [sumFor_cons, if_neg, zero_add]
          · exact h3
          · exact fun hcontra => hhd a.pid (List.mem_map_of_mem _ ha) hcontra

/-- The exit loop consumes eligible positions strictly in queue order: the
entry data of the emitted matched trades is, in order, the entry data of an
initial segment of the eligible-filtered queue. -/
theorem closeAgainst_oldest_first (t : Trade) (ep ppc ef : ℚ) :
    ∀ (toClose : ℚ) (l : List Position),
      ((closeAgainst t ep ppc ef toClose l).2.map fun x =>
          (x.1.Ticker, x.1.Entry_Date, x.1.Entry_Direction, x.1.Entry_Price)) =
        (((l.filter (eligible t)).take
            (closeAgainst t ep ppc ef toClose l).2.length).map fun p =>
          (p.ticker, p.entry_date, p.direction, p.avg_price)) := by
  intro toClose l
  induction l generalizing toClose with
  | nil => simp [closeAgainst]
  | cons p ps ih =>
    cases he : eligible t p
    · rw [closeAgainst]
      simp only [he, Bool.false_eq_true, if_false, List.filter_cons]
      exact ih toClose
    · by_cases hc : toClose ≤ 0
      · rw [closeAgainst]
        simp [he, hc]
      · rw [closeAgainst]
        simp only [he, if_true, if_neg hc, List.filter_cons, List.map_cons,
          List.length_cons, List.take_succ_cons]
        rw [ih]
        simp [emitMatched]

/-- For a non-settlement exit, every matched trade emitted by the exit loop
realizes the price-spread profit `contracts × (100 − entryPrice − exitPrice)
/ 100` and carries `100 − exitPrice` as its effective exit price. -/
theorem closeAgainst_trade_profit (t : Trade) (ep ppc ef : ℚ)
    (hset : t.Type' ≠ "settlement") :
    ∀ (toClose : ℚ) (l : List Position) (x : MatchedTrade × ℕ),
      x ∈ (closeAgainst t ep ppc ef toClose l).2 →
      x.1.Realized_Profit = x.1.Contracts * (100 - x.1.Entry_Price - ep) / 100 ∧
        x.1.Exit_Price = 100 - ep := by
  intro toClose l
  induction l generalizing toClose with
  | nil => simp [closeAgainst]
  | cons p ps ih =>
    intro x hx
    cases he : eligible t p
    · rw [closeAgainst] at hx
      simp only [he, Bool.false_eq_true, if_false] at hx
      exact ih toClose x hx
    · by_cases hc : toClose ≤ 0
      · rw [closeAgainst] at hx
        simp [he, hc] at hx
      · rw [closeAgainst] at hx
        simp only [he, if_true, if_neg hc] at hx
        rcases List.mem_cons.mp hx with h1 | h2
        · subst h1
          constructor <;> simp [emitMatched, hset]
        · exact ih _ x h2

theorem matchStep_invariant (s : MatchState) (t : Trade)
    (h : matchInvariant s) : matchInvariant (matchStep s t) := by
  obtain ⟨hpw, hlt, hclt, hcons, hnn⟩ := h
  by_cases h1 : t.Type' = "trade" ∧ t.Realized_Profit = 0
  · -- entry: push a fresh position with pid = nextPid
    rw [matchStep, if_pos h1]
    refine ⟨?_, ?_, ?_, ?_, ?_⟩
    · rw [List.map_append, List.pairwise_append]
      refine ⟨hpw, by simp, ?_⟩
      intro a ha b hb
      simp only [List.map_cons, List.map_nil, List.mem_singleton] at hb
      subst hb
      obtain ⟨q, hq, rfl⟩ := List.mem_map.mp ha
      exact Nat.ne_of_lt (hlt q hq)
    · intro p hp
      rcases List.mem_append.mp hp with hin | hnew
      · exact Nat.lt_succ_of_lt (hlt p hin)
      · simp only [List.mem_singleton] at hnew
        subst hnew
        exact Nat.lt_succ_self _
    · intro x hx
      exact Nat.lt_succ_of_lt (hclt x hx)
    · intro p hp
      rcases List.mem_append.mp hp with hin | hnew
      · exact hcons p hin
      · simp only [List.mem_singleton] at hnew
        subst hnew
        simp only []
        rw [sumFor_eq_zero fun x hx => Nat.ne_of_lt (hclt x hx)]
        ring
    · intro p hp
      rcases List.mem_append.mp hp with hin | hnew
      · exact hnn p hin
      · simp only [List.mem_singleton] at hnew
        subst hnew
        exact fun hq => hq
  · by_cases h2 : t.Type' = "settlement" ∨ (t.Type' = "trade" ∧ t.Realized_Profit ≠ 0)
    · rw [matchStep, if_neg h1, if_pos h2]
      by_cases hemp : (s.positions.filter (eligible t)).isEmpty
      · simpa [hemp] using ⟨hpw, hlt, hclt, hcons, hnn⟩
      · simp only [hemp, Bool.false_eq_true, if_false]
        set ep := if t.Type' = "settlement" then t.Realized_Revenue / t.Contracts * 100
          else t.Average_Price with hep
        set mts := (closeAgainst t ep
          (if t.Realized_Profit ≠ 0 then t.Realized_Profit / t.Contracts else 0)
          t.Fees t.Contracts s.positions).2 with hmts
        set l' := (closeAgainst t ep
          (if t.Realized_Profit ≠ 0 then t.Realized_Profit / t.Contracts else 0)
          t.Fees t.Contracts s.positions).1 with hl'
        have hf := closeAgainst_forall₂ t ep
          (if t.Realized_Profit ≠ 0 then t.Realized_Profit / t.Contracts else 0)
          t.Fees t.Contracts s.positions hpw
        have hpid := closeAgainst_pids t ep
          (if t.Realized_Profit ≠ 0 then t.Realized_Profit / t.Contracts else 0)
          t.Fees t.Contracts s.positions
        have hmem : ∀ q ∈ l', ∃ p ∈ s.positions,
            q.pid = p.pid ∧ q.original = p.original ∧
              sumFor p.pid mts + q.contracts = p.contracts ∧
              (0 ≤ p.contracts → 0 ≤ q.contracts) := by
          intro q hq
          obtain ⟨i, hi⟩ := List.mem_iff_get.mp hq
          have hlen : s.positions.length = l'.length := hf.length_eq
          have hb : (i : ℕ) < s.positions.length := by
            rw [hlen]
            exact i.isLt
          have hr := hf.get hb i.isLt
          refine ⟨s.positions.get ⟨i, hb⟩, List.get_mem s.positions i hb, ?_⟩
          rw [← hi]
          exact ⟨hr.1, hr.2.1, hr.2.2.1, hr.2.2.2⟩
        refine ⟨?_, ?_, ?_, ?_, ?_⟩
        · simpa [← hl', hpid] using hpw
        · intro p hp
          obtain ⟨q, hq, hpq, _, _, _⟩ := hmem p hp
          simpa [hpq] using hlt q hq
        · intro x hx
          simp only [List.mem_append] at hx
          rcases hx with hold | hnew
          · exact hclt x hold
          · obtain ⟨q, hq, hqpid⟩ := closeAgainst_mem_pids t ep _ _ _ _ x hnew
            simpa [hqpid] using hlt q hq
        · intro p hp
          obtain ⟨q, hq, hpq, hporig, hpcons, _⟩ := hmem p hp
          rw [sumFor_append, hpq, hporig]
          have := hcons q hq
          linarith [hpcons]
        · intro p hp
          obtain ⟨q, hq, _, hporig, _, hpnn⟩ := hmem p hp
          rw [hporig]
          intro horig
          exact hpnn (hnn q hq horig)
    · rw [matchStep, if_neg h1, if_neg h2]
      exact ⟨hpw, hlt, hclt, hcons, hnn⟩

theorem foldl_matchStep_invariant :
    ∀ (l : List Trade) (s : MatchState), matchInvariant s →
      matchInvariant (l.foldl matchStep s)
  | [], _, h => h
  | t :: ts, s, h => foldl_matchStep_invariant ts _ (matchStep_invariant s t h)

theorem matchTradesFifoAux_invariant (trades : List Trade) :
    matchInvariant (matchTradesFifoAux trades) := by
  apply foldl_matchStep_invariant
  refine ⟨?_, ?_, ?_, ?_, ?_⟩ <;> simp [matchInvariant]

/-- A successful new-format row transform has a positive contract count (the
`contracts <= 0` early return) and guards the ROI division (ROI is absent
when the entry cost is 0). -/
theorem transformNewFormatRow?_spec {env : JsEnv} {total index : ℕ} {row : Row}
    {t : Trade} {mt : MatchedTrade}
    (h : transformNewFormatRow? env total index row = some (t, mt)) :
    0 < t.Contracts ∧ 0 < mt.Contracts ∧ (mt.Entry_Cost = 0 → mt.ROI = none) := by
  simp only [transformNewFormatRow?] at h
  by_cases h1 : toLowerStr ((jsOr row.type row.Type').getD "") = "credit"
  · rw [if_pos h1] at h
    exact absurd h (by simp)
  · rw [if_neg h1] at h
    by_cases h2 : (!truthy (jsOr row.market_ticker row.Ticker)) = true
    · rw [if_pos h2] at h
      exact absurd h (by simp)
    · rw [if_neg h2] at h
      by_cases h3 : parseNumber (jsOr row.quantity row.Contracts) ≤ 0
      · rw [if_pos h3] at h
        exact absurd h (by simp)
      · rw [if_neg h3] at h
        rw [Option.some.injEq, Prod.mk.injEq] at h
        obtain ⟨ht, hmt⟩ := h
        subst ht
        subst hmt
        refine ⟨by simpa using not_le.mp h3, by simpa using not_le.mp h3, ?_⟩
        intro hz
        simp only at hz ⊢
        rw [if_neg fun hne => hne hz]

theorem transformNewFormatRowsAux_trades_pos (env : JsEnv) (total : ℕ) :
    ∀ (index : ℕ) (rows : List Row) (t : Trade),
      t ∈ (transformNewFormatRowsAux env total index rows).1 → 0 < t.Contracts := by
  intro index rows
  induction rows generalizing index with
  | nil => simp [transformNewFormatRowsAux]
  | cons row rest ih =>
    intro t ht
    rw [transformNewFormatRowsAux] at ht
    cases hrow : transformNewFormatRow? env total index row with
    | none =>
      rw [hrow] at ht
      exact ih (index + 1) t ht
    | some pair =>
      rw [hrow] at ht
      rcases List.mem_cons.mp ht with h1 | h2
      · subst h1
        exact (transformNewFormatRow?_spec (by rw [hrow])).1
      · exact ih (index + 1) t h2

theorem transformNewFormatRowsAux_roi_guard (env : JsEnv) (total : ℕ) :
    ∀ (index : ℕ) (rows : List Row) (mt : MatchedTrade),
      mt ∈ (transformNewFormatRowsAux env total index rows).2 →
      mt.Entry_Cost = 0 → mt.ROI = none := by
  intro index rows
  induction rows generalizing index with
  | nil => simp [transformNewFormatRowsAux]
  | cons row rest ih =>
    intro mt hmt
    rw [transformNewFormatRowsAux] at hmt
    cases hrow : transformNewFormatRow? env total index row with
    | none =>
      rw [hrow] at hmt
      exact ih (index + 1) mt hmt
    | some pair =>
      rw [hrow] at hmt
      rcases List.mem_cons.mp hmt with h1 | h2
      · subst h1
        exact (transformNewFormatRow?_spec (by rw [hrow])).2.2
      · exact ih (index + 1) mt h2

/-- Evaluation of the legacy normalizer on the zero-contract row: the row is
kept and yields a trade with 0 contracts. -/
theorem legacyTrades_c3Row_contracts :
    ((legacyTrades env0 [c3Row]).map fun t => t.Contracts) = [(0 : ℚ)] := by
  have hkeep : legacyKeep c3Row = true := by decide
  have hparts : parseFloatParts "0" = some (false, ['0'], []) := by decide
  have hd0 : digitsToNat ['0'] = 0 := by decide
  have hval : parseFloatQ "0" = some 0 := by
    rw [parseFloatQ, hparts]
    simp [partsToQ, hd0, digitsToNat]
  have hfilter : List.filter legacyKeep [c3Row] = [c3Row] := by
    simp [List.filter_cons, hkeep]
  rw [legacyTrades, hfilter]
  simp [legacyTradeOfRow, c3Row, hval]

/-! ## The claims -/

/-- C1.  Split-fill proration at the failing input: one entry of 20
contracts (cost basis $10.00, entry fee $1.00) closed by exits of 8 and 12
contracts yields exactly two matched trades whose contracts sum to 20, but
while the first is prorated 8/20 of the lot's original totals ($4.00 cost,
$0.40 fee), the second carries the lot's FULL original totals ($10.00 cost,
$1.00 fee) instead of the 12/20 share ($6.00, $0.60) the claim requires:
the proration denominator is the position's mutated remaining count (12),
not its original count (20). -/
theorem C1_splitProrationAtFailingInput :
    ((matchTradesFifo [c1Entry, c1ExitA, c1ExitB]).map fun m =>
        (m.Contracts, m.Entry_Cost, m.Entry_Fee)) =
      [((8 : ℚ), (4 : ℚ), (2/5 : ℚ)), ((12 : ℚ), (10 : ℚ), (1 : ℚ))] := by
  norm_num [matchTradesFifo, matchTradesFifoAux, sortTradesByDate, sortByKey, insertByKey,
    setTradeCost, calculateTradeCost, matchStep, closeAgainst, closePosition, emitMatched,
    eligible, jsDiv, c1Entry, c1ExitA, c1ExitB, min_def]
  simp

/-- C2.  Zero-entry-cost ROI: on the new-format pre-matched path the guard
holds (every matched trade with entry cost 0 has its ROI field absent), but
on the FIFO-matcher path it does not: a zero-cost entry (10 contracts at
0¢) closed by a settlement produces a matched trade with `Entry_Cost = 0`
whose ROI field holds the result of the unguarded division
`(profit − fees) / 0` — a non-finite JS number (NaN), not `undefined`. -/
theorem C2_zeroCostRoi :
    (∀ (env : JsEnv) (rows : List Row) (mt : MatchedTrade),
        mt ∈ (transformNewFormatRows env rows).2 → mt.Entry_Cost = 0 → mt.ROI = none) ∧
      ((matchTradesFifo [c2Entry, c2Settle]).map fun m => (m.Entry_Cost, m.ROI)) =
        [((0 : ℚ), some JsNum.nonFinite)] := by
  constructor
  · intro env rows mt hmt
    exact transformNewFormatRowsAux_roi_guard env rows.length 0 rows mt hmt
  · norm_num [matchTradesFifo, matchTradesFifoAux, sortTradesByDate, sortByKey, insertByKey,
      setTradeCost, calculateTradeCost, matchStep, closeAgainst, closePosition, emitMatched,
      eligible, jsDiv, c2Entry, c2Settle, min_def]
    simp

/-- C4.  FIFO consumption order: in general, the matched trades an exit
emits reference, in queue order, an initial segment of the
eligible-filtered open-position queue (oldest-queued first, with
same-direction and opposite-direction positions equally eligible under the
one `eligible` filter); in particular, for entries E1 (10, "Yes", day 1)
and E2 (10, "Yes", day 2) and a single 10-contract exit on day 3, the only
matched trade references E1 (entry date 1) while E2 stays fully open (10
contracts, not closed) and absent from the output. -/
theorem C4_fifoOldestFirst :
    (∀ (t : Trade) (ep ppc ef toClose : ℚ) (l : List Position),
        ((closeAgainst t ep ppc ef toClose l).2.map fun x =>
            (x.1.Ticker, x.1.Entry_Date, x.1.Entry_Direction, x.1.Entry_Price)) =
          (((l.filter (eligible t)).take
              (closeAgainst t ep ppc ef toClose l).2.length).map fun p =>
            (p.ticker, p.entry_date, p.direction, p.avg_price))) ∧
      ((matchTradesFifo [c4E1, c4E2, c4Exit]).map fun m => m.Entry_Date) = [1] ∧
      ((matchTradesFifoAux [c4E1, c4E2, c4Exit]).positions.map fun p =>
          (p.entry_date, p.contracts, p.is_closed)) =
        [((1 : ℤ), (0 : ℚ), true), ((2 : ℤ), (10 : ℚ), false)] := by
  refine ⟨closeAgainst_oldest_first, ?_, ?_⟩ <;>
    norm_num [matchTradesFifo, matchTradesFifoAux, sortTradesByDate, sortByKey, insertByKey,
      setTradeCost, calculateTradeCost, matchStep, closeAgainst, closePosition, emitMatched,
      eligible, jsDiv, c4E1, c4E2, c4Exit, min_def]

/-- C5 (amended).  For every entry position pushed by the matcher whose
original contract count is nonnegative, the contracts of the matched trades
emitted against it never sum to more than that original count.  (The
nonnegativity hypothesis is forced: legacy normalization can produce
negative contract counts, and an untouched negative position has
matched-trade sum 0, exceeding its original count.) -/
theorem C5_matchedSumLeOriginal :
    ∀ (trades : List Trade) (p : Position),
      p ∈ (matchTradesFifoAux trades).positions → 0 ≤ p.original →
      sumFor p.pid (matchTradesFifoAux trades).completed ≤ p.original := by
  intro trades p hp hpos
  obtain ⟨_, _, _, hcons, hnn⟩ := matchTradesFifoAux_invariant trades
  have h1 := hcons p hp
  have h2 := hnn p hp hpos
  linarith

/-- C5 witness: one entry of 10 contracts; the matched-trade sum against its
position (0, no exits) is at most the original 10. -/
theorem C5_witness :
    sumFor c5WitnessPos.pid (matchTradesFifoAux [c4E1]).completed ≤
      c5WitnessPos.original := by
  apply C5_matchedSumLeOriginal [c4E1] c5WitnessPos
  · norm_num [matchTradesFifoAux, sortTradesByDate, sortByKey, insertByKey,
      setTradeCost, calculateTradeCost, matchStep, c4E1, c5WitnessPos]
    simp
  · norm_num [c5WitnessPos]

/-- C5 counterexample: a single entry trade of -5 contracts (reachable from
a legacy row) creates a position with original count -5 and no matched
trades at all, so the matched-trade contract sum 0 exceeds the original
count and the claim as stated is false. -/
theorem C5_counterexample :
    ((matchTradesFifoAux [c5NegEntry]).positions.map fun p => (p.pid, p.original)) =
        [((0 : ℕ), (-5 : ℚ))] ∧
      (matchTradesFifoAux [c5NegEntry]).completed = [] ∧
      ¬ (∀ p ∈ (matchTradesFifoAux [c5NegEntry]).positions,
          sumFor p.pid (matchTradesFifoAux [c5NegEntry]).completed ≤ p.original) := by
  refine ⟨?_, ?_, ?_⟩
  · norm_num [matchTradesFifoAux, sortTradesByDate, sortByKey, insertByKey,
      setTradeCost, calculateTradeCost, matchStep, c5NegEntry]
  · norm_num [matchTradesFifoAux, sortTradesByDate, sortByKey, insertByKey,
      setTradeCost, calculateTradeCost, matchStep, c5NegEntry]
  · intro h
    have hmem : c5Pos ∈ (matchTradesFifoAux [c5NegEntry]).positions := by
      norm_num [matchTradesFifoAux, sortTradesByDate, sortByKey, insertByKey,
        setTradeCost, calculateTradeCost, matchStep, c5NegEntry, c5Pos]
      simp
    have hc : (matchTradesFifoAux [c5NegEntry]).completed = [] := by
      norm_num [matchTradesFifoAux, sortTradesByDate, sortByKey, insertByKey,
        setTradeCost, calculateTradeCost, matchStep, c5NegEntry]
    have := h c5Pos hmem
    rw [hc] at this
    simp only [sumFor, List.filter_nil, List.map_nil, List.sum_nil, c5Pos] at this
    norm_num at this

/-- C6.  Non-settlement close economics: in general, every matched trade a
trade-type exit (nonzero realized profit) emits realizes
`contracts × (100 − entryPrice − exitPrice) / 100` dollars before fees,
where exitPrice is the exit row's average price; in particular an entry of
10 contracts at 30¢ "Yes" closed by an opposite-direction exit at 80¢ "No"
realizes 10 × (100 − 30 − 80)/100 = −1.00 dollars. -/
theorem C6_tradeCloseSpreadProfit :
    (∀ (s : MatchState) (t : Trade), t.Type' = "trade" → t.Realized_Profit ≠ 0 →
        ∀ x ∈ (matchStep s t).completed, x ∈ s.completed ∨
          (x.1.Realized_Profit =
              x.1.Contracts * (100 - x.1.Entry_Price - t.Average_Price) / 100 ∧
            x.1.Exit_Price = 100 - t.Average_Price)) ∧
      ((matchTradesFifo [c4E1, c6Exit]).map fun m => m.Realized_Profit) = [(-1 : ℚ)] := by
  constructor
  · intro s t h1 h2 x hx
    rw [matchStep] at hx
    rw [if_neg fun hc => h2 hc.2, if_pos (Or.inr ⟨h1, h2⟩)] at hx
    simp only [h1] at hx
    by_cases hemp : ((s.positions.filter (eligible t)).isEmpty : Bool) = true
    · rw [if_pos hemp] at hx
      exact Or.inl hx
    · rw [if_neg hemp] at hx
      simp only [List.mem_append] at hx
      rcases hx with hold | hnew
      · exact Or.inl hold
      · refine Or.inr ?_
        have hset : t.Type' ≠ "settlement" := by rw [h1]; decide
        have := closeAgainst_trade_profit t
          (if t.Type' = "settlement" then t.Realized_Revenue / t.Contracts * 100
            else t.Average_Price)
          (if t.Realized_Profit ≠ 0 then t.Realized_Profit / t.Contracts else 0)
          t.Fees hset t.Contracts s.positions x (by
            simpa only [h1, if_neg (by decide : ¬("trade" : String) = "settlement")]
              using hnew)
        simpa only [if_neg hset] using this
  · norm_num [matchTradesFifo, matchTradesFifoAux, sortTradesByDate, sortByKey, insertByKey,
      setTradeCost, calculateTradeCost, matchStep, closeAgainst, closePosition, emitMatched,
      eligible, jsDiv, c4E1, c6Exit, min_def]
    simp
    norm_num

/-- C3 (amended).  Rows with non-positive parsed contract quantity are
silently dropped in the NEW schema only, so every new-format canonical
trade has contracts > 0; the legacy normalizer drops only falsy-ticker and
credit rows, and keeps a row whose contract count parses to 0, emitting a
trade with contracts = 0. -/
theorem C3_nonPositiveContractsDropped :
    (∀ (env : JsEnv) (rows : List Row) (t : Trade),
        t ∈ (transformNewFormatRows env rows).1 → 0 < t.Contracts) ∧
      ((legacyTrades env0 [c3Row]).map fun t => t.Contracts) = [(0 : ℚ)] := by
  constructor
  · intro env rows t ht
    exact transformNewFormatRowsAux_trades_pos env rows.length 0 rows t ht
  · exact legacyTrades_c3Row_contracts

/-- C3 counterexample: the legacy normalizer keeps a row whose contract
count parses to 0 (the legacy filter checks only ticker truthiness and
`Type !== 'credit'`), so "every canonical Trade has contracts > 0" fails
on the legacy schema. -/
theorem C3_counterexample :
    ¬ (∀ t ∈ legacyTrades env0 [c3Row], 0 < t.Contracts) := by
  intro hall
  have hmap := legacyTrades_c3Row_contracts
  cases hl : legacyTrades env0 [c3Row] with
  | nil => rw [hl] at hmap; simp at hmap
  | cons a l =>
    rw [hl] at hmap
    simp only [List.map_cons, List.cons.injEq] at hmap
    have hpos := hall a (hl ▸ List.mem_cons_self a l)
    rw [hmap.1] at hpos
    exact lt_irrefl 0 hpos

/-- C7 (amended).  Schema classification: legacy exactly when all six
legacy columns are present (normalized case-insensitively); new-format
exactly when all six new-format columns are present AND the legacy set is
not also fully present (on a header carrying both full sets the legacy
branch wins); the schema-mismatch error is raised exactly when neither
full set is present (given a nonempty data set). -/
theorem C7_schemaDetection :
    (∀ fields : List String,
        (detectSchema fields = none ↔
          hasLegacyColumns (fields.map normalizeHeader) = false ∧
            hasNewColumns (fields.map normalizeHeader) = false) ∧
        (detectSchema fields = some Schema.legacy ↔
          hasLegacyColumns (fields.map normalizeHeader) = true) ∧
        (detectSchema fields = some Schema.newFormat ↔
          hasNewColumns (fields.map normalizeHeader) = true ∧
            hasLegacyColumns (fields.map normalizeHeader) = false)) ∧
      (∀ (env : JsEnv) (results : CSVResults), results.data ≠ [] →
        (processCSVData env results = Except.error schemaErrorMsg ↔
          detectSchema results.fields = none)) := by
  constructor
  · intro fields
    cases hL : hasLegacyColumns (fields.map normalizeHeader) <;>
      cases hN : hasNewColumns (fields.map normalizeHeader) <;>
        simp [detectSchema, hL, hN]
  · intro env results hne
    have hfalse : results.data.isEmpty = false := by
      simpa [List.isEmpty_iff] using hne
    rw [processCSVData, if_neg (by simp [hfalse])]
    cases hd : detectSchema results.fields with
    | none => simp
    | some sch =>
      cases sch with
      | legacy =>
        by_cases hemp : (legacyTrades env results.data).isEmpty = true <;>
          simp [hemp, schemaErrorMsg]
      | newFormat =>
        by_cases hemp : (transformNewFormatRows env results.data).1.isEmpty = true <;>
          simp [hemp, schemaErrorMsg]

/-- C7 counterexample: a header carrying all twelve columns has the full
new-format set present yet is classified as legacy, refuting "new-format
exactly when all six new-format columns are present". -/
theorem C7_counterexample :
    hasNewColumns (fields12.map normalizeHeader) = true ∧
      detectSchema fields12 ≠ some Schema.newFormat ∧
      detectSchema fields12 = some Schema.legacy := by decide

/-- C8.  The dataset combiner concatenates the input batches' trade lists,
re-sorts by date, re-runs the FIFO matcher from scratch on the combined
set and recomputes the statistics — its output depends only on the inputs'
`trades` and `originalData`, never on their previously matched results; and
since the matcher itself re-sorts, the matched trades equal those of
matching the unsorted concatenation directly.  In particular, combining a
batch with itself reproduces `matchTradesFifo` of the concatenated raw
trades. -/
theorem C8_combineRerunsFifoFromScratch :
    (∀ dataArray : List ProcessedData,
        combineProcessedData dataArray =
          { originalData := dataArray.foldl (fun acc d => acc ++ d.originalData) []
            trades := (sortTradesByDate
                (dataArray.foldl (fun acc d => acc ++ d.trades) [])).map setTradeCost
            matchedTrades :=
              matchTradesFifo (dataArray.foldl (fun acc d => acc ++ d.trades) [])
            basicStats := calculateBasicStats
              ((sortTradesByDate
                (dataArray.foldl (fun acc d => acc ++ d.trades) [])).map setTradeCost)
              (matchTradesFifo (dataArray.foldl (fun acc d => acc ++ d.trades) [])) }) ∧
      ∀ d : ProcessedData,
        (combineProcessedData [d, d]).matchedTrades =
          matchTradesFifo (d.trades ++ d.trades) := by
  constructor
  · intro da
    simp only [combineProcessedData, matchTradesFifo_sortTradesByDate]
  · intro d
    simp only [combineProcessedData, matchTradesFifo_sortTradesByDate]
    simp

/-- C9.  Degenerate inputs to the risk metrics calculator — no matched
trades, or non-positive initial capital, or no day with a non-zero
portfolio-value change — produce the all-zero metrics record (for any model
of `Math.sqrt`), with every division guarded behind the early returns. -/
theorem C9_riskMetricsDegenerateZero :
    ∀ (sqrtFn : ℚ → ℚ) (matchedTrades : List MatchedTrade) (initialCapital : ℚ),
      (matchedTrades = [] ∨ initialCapital ≤ 0 ∨
        ∀ r ∈ dailyReturnsOf matchedTrades initialCapital, r = 0) →
      calculateRiskMetrics sqrtFn matchedTrades initialCapital =
        zeroRiskMetrics initialCapital := by
  intro sqrtFn trades cap h
  by_cases h0 : (trades.isEmpty : Bool) = true ∨ cap ≤ 0
  · rw [calculateRiskMetrics, if_pos h0]
  · rcases h with h | h | h
    · exact absurd (Or.inl (by simp [h])) h0
    · exact absurd (Or.inr h) h0
    · rw [calculateRiskMetrics, if_neg h0]
      have hact : (dailyReturnsOf trades cap).filter (fun r => 0 < |r|) = [] := by
        apply List.filter_eq_nil_iff.mpr
        intro r hr
        simp [h r hr]
      simp only [hact, List.isEmpty_nil, if_true]

/-- C9 witness: the empty matched-trade list with capital 10000 yields the
all-zero record. -/
theorem C9_witness :
    calculateRiskMetrics (fun _ => 0) [] 10000 = zeroRiskMetrics 10000 :=
  C9_riskMetricsDegenerateZero (fun _ => 0) [] 10000 (Or.inl rfl)

/-- C10.  Timestamp parsing: "Jan 20, 2025 at 10:04 AM PST" resolves to the
UTC instant 2025-01-20T18:04:00Z (epoch 1737396240000 ms); a timezone
abbreviation absent from the fixed table resolves to the PST offset
(−480 minutes), both in the lookup and end-to-end ("XQZ"); and when the
Kalshi pattern path yields nothing, `parseDate` falls back to generic
parsing and then to the current instant — it always returns a date. -/
theorem C10_parseDateResolution :
    (parseDate env0 "Jan 20, 2025 at 10:04 AM PST" =
        daysFromCivil 2025 1 20 * dayMs + 18 * 3600000 + 4 * 60000 ∧
      daysFromCivil 2025 1 20 * dayMs + 18 * 3600000 + 4 * 60000 = 1737396240000) ∧
      (∀ tz : String, timezoneOffsets.lookup tz = none → tzOffsetMinutes tz = -480) ∧
      parseDate env0 "Jan 20, 2025 at 10:04 AM XQZ" = 1737396240000 ∧
      (∀ (env : JsEnv) (s : String), kalshiMillis s = none →
        parseDate env s = (env.freeParse s).getD env.now) := by
  refine ⟨by decide, ?_, by decide, ?_⟩
  · intro tz h
    simp [tzOffsetMinutes, h]
  · intro env s h
    rw [parseDate, h]
    cases env.freeParse s <;> simp

end Kalshi
